import Mathlib

/-!
Shallow embedding of the CityGrid program (src/main.py).

The grid cells use the following states, matching the symbols of the
source: 0 = empty, X = obstructed, # = covered, | = tower (station),
and the display overlay symbols written by build_path_on_grid:
* = path marker, B = begin marker, E = end marker.

Random obstruction generation (generate_obstructions) and rendering are
incidental I/O collaborators and are not part of any algorithmic claim;
they are not embedded.  Console printing inside place_tower is dropped:
it does not affect the state.
-/

inductive Cell where
  | empty
  | obstructed
  | covered
  | tower
  | pathMark
  | beginMark
  | endMark
deriving DecidableEq, Repr

abbrev Pos := Nat × Nat

abbrev GridT := List (List Cell)

/-- Python range(a, b) as a list of naturals (empty when b le a). -/
def rangeFT (a b : Nat) : List Nat := (List.range (b - a)).map (fun k => a + k)

/-- Absolute difference on naturals, the value of Python abs(a - b). -/
def natAbsDiff (a b : Nat) : Nat := (a - b) + (b - a)

/-- Read grid[i][j].  Out-of-range reads return the obstructed cell as a
default; every read performed by the embedded operations is in range
whenever the well-formedness predicate WF holds. -/
def cellAt (g : GridT) (i j : Nat) : Cell := (g.getD i []).getD j Cell.obstructed

/-- Write grid[i][j] := v.  List.set is a no-op out of range. -/
def setCell (g : GridT) (i j : Nat) (v : Cell) : GridT :=
  g.set i ((g.getD i []).set j v)

/-- The state of a CityGrid object: dimensions n, m, the coverage radius,
the 2D cell array and the tower registry, exactly the attributes of the
Python class. -/
structure CityGrid where
  n : Nat
  m : Nat
  tower_radius : Nat
  grid : GridT
  towers : List Pos
deriving DecidableEq, Repr

/-- The grid array has n rows, each of length m. -/
def WF (s : CityGrid) : Prop :=
  s.grid.length = s.n ∧ ∀ row ∈ s.grid, row.length = s.m

instance (s : CityGrid) : Decidable (WF s) := by
  unfold WF; infer_instance

/-- The index pairs visited by the nested loops
for i in range(max(0, x - r), min(n, x + r + 1)):
  for j in range(max(0, y - r), min(m, y + r + 1)), in row-major order.
On Nat, truncated subtraction x - r equals max(0, x - r). -/
def neighborhood (n m x y r : Nat) : List Pos :=
  (rangeFT (x - r) (min n (x + r + 1))).flatMap (fun i =>
    (rangeFT (y - r) (min m (y + r + 1))).map (fun j => (i, j)))

/-- One step of the covering loop of place_tower: grid[i][j] = # when the
cell is currently 0. -/
def coverStep (g : GridT) (q : Pos) : GridT :=
  if cellAt g q.1 q.2 = Cell.empty then setCell g q.1 q.2 Cell.covered else g

/-- place_tower(x, y, r): if grid[x][y] not in [|, X], set grid[x][y] = |,
append (x, y) to towers, and mark every 0 cell of the clipped radius-r
neighborhood as #; otherwise only print a message (state unchanged). -/
def place_tower (s : CityGrid) (x y r : Nat) : CityGrid :=
  if cellAt s.grid x y ≠ Cell.tower ∧ cellAt s.grid x y ≠ Cell.obstructed then
    { s with
      grid := (neighborhood s.n s.m x y r).foldl coverStep (setCell s.grid x y Cell.tower),
      towers := s.towers ++ [(x, y)] }
  else s

/-- get_uncovered_blocks: the coordinates (i, j), in row-major order, with
grid[i][j] == 0. -/
def get_uncovered_blocks (s : CityGrid) : List Pos :=
  (List.range s.n).flatMap (fun i =>
    ((List.range s.m).filter (fun j => decide (cellAt s.grid i j = Cell.empty))).map
      (fun j => (i, j)))

/-- get_coverage(x, y, R): the number of 0 cells in the clipped radius-R
neighborhood of (x, y). -/
def get_coverage (s : CityGrid) (x y R : Nat) : Nat :=
  ((neighborhood s.n s.m x y R).filter
    (fun q => decide (cellAt s.grid q.1 q.2 = Cell.empty))).length

/-- The score the placement loop computes for a candidate cell. -/
def coverage_score (s : CityGrid) (p : Pos) : Nat :=
  get_coverage s p.1 p.2 s.tower_radius

/-- The candidate scan of place_optimal_towers: starting from
(best_tower_position, best_coverage) = (None, 0), visit every (i, j) in
row-major order; when grid[i][j] is in [#, 0] and its coverage strictly
exceeds the best coverage so far, record it. -/
def best_position (s : CityGrid) : Option Pos × Nat :=
  (List.range s.n).foldl (fun acc i =>
    (List.range s.m).foldl (fun acc2 j =>
      if cellAt s.grid i j = Cell.covered ∨ cellAt s.grid i j = Cell.empty then
        if acc2.2 < get_coverage s i j s.tower_radius then
          (some (i, j), get_coverage s i j s.tower_radius)
        else acc2
      else acc2) acc) (none, 0)

/-- Modelled from the spec: display_info is called by place_optimal_towers
after each placement but is not defined anywhere in the repository source;
the spec describes the Renderer as a read-only consumer that never mutates
the grid, so it is modelled as the identity on the state. -/
def display_info (s : CityGrid) : CityGrid := s

/-- The while loop of place_optimal_towers, with explicit fuel.  Each
iteration re-checks get_uncovered_blocks (the Python loop re-fetches it
after a placement); when the scan yields no position the Python loop would
spin forever with a stale uncovered list, which the embedding models by
recursing on the unchanged state until the fuel runs out (result none). -/
def place_optimal_towers_loop : Nat → CityGrid → Option CityGrid
  | 0, _ => none
  | fuel + 1, s =>
    if get_uncovered_blocks s = [] then some s
    else
      match (best_position s).1 with
      | some p =>
          place_optimal_towers_loop fuel (display_info (place_tower s p.1 p.2 s.tower_radius))
      | none => place_optimal_towers_loop fuel s

/-- place_optimal_towers(): run the placement loop.  The fuel n * m + 1 is
proved sufficient for every well-formed state (each iteration strictly
decreases the number of 0 cells, which is at most n * m). -/
def place_optimal_towers (s : CityGrid) : Option CityGrid :=
  place_optimal_towers_loop (s.n * s.m + 1) s

/-- An open-list entry of find_path: the tuple
(f-score, (x, y), path) exactly as the Python code stores it. -/
abbrev Entry := Nat × Pos × List Pos

/-- Python comparison of coordinate pairs (lexicographic). -/
def posLtB (a b : Pos) : Bool :=
  decide (a.1 < b.1) || (decide (a.1 = b.1) && decide (a.2 < b.2))

/-- Python comparison of lists of coordinates (lexicographic). -/
def pathLtB : List Pos → List Pos → Bool
  | [], [] => false
  | [], _ :: _ => true
  | _ :: _, [] => false
  | a :: ta, b :: tb => posLtB a b || (decide (a = b) && pathLtB ta tb)

/-- Python comparison of open-list entries: the default lexicographic
order on the tuple (f-score, coordinate, path). -/
def entryLtB (e f : Entry) : Bool :=
  decide (e.1 < f.1) ||
    (decide (e.1 = f.1) &&
      (posLtB e.2.1 f.2.1 || (decide (e.2.1 = f.2.1) && pathLtB e.2.2 f.2.2)))

/-- Python min over a nonempty list: keep the current best, replacing it
only when a later element compares strictly smaller, so the first
occurrence of the minimum is returned. -/
def listMin (e : Entry) (l : List Entry) : Entry :=
  l.foldl (fun best x => if entryLtB x best then x else best) e

/-- Python list.remove: delete the first occurrence of the given value. -/
def removeFirst (e : Entry) : List Entry → List Entry
  | [] => []
  | x :: xs => if x = e then xs else x :: removeFirst e xs

/-- The entries appended when find_path expands (x, y) carrying path: for
every in-bounds (i, j) of the 3x3 box around (x, y) other than (x, y)
itself whose cell is # or |, the entry
(len(path) + 1 + abs(i - end0) + abs(j - end1), (i, j), path + [(x, y)]). -/
def successors (s : CityGrid) (endp : Pos) (x y : Nat) (path : List Pos) : List Entry :=
  (rangeFT (x - 1) (min s.n (x + 2))).flatMap (fun i =>
    ((rangeFT (y - 1) (min s.m (y + 2))).filter (fun j =>
      (decide (i ≠ x) || decide (j ≠ y)) &&
        decide (cellAt s.grid i j = Cell.covered ∨ cellAt s.grid i j = Cell.tower))).map
      (fun j =>
        (path.length + 1 + natAbsDiff i endp.1 + natAbsDiff j endp.2, (i, j),
          path ++ [(x, y)])))

/-- The initial open list of find_path: [(0, start, [])]. -/
def initialOpen (start : Pos) : List Entry := [(0, start, [])]

/-- The while loop of find_path, threading the (never written) object
state, with explicit fuel.  Each iteration pops the minimal entry of the
open list; returns the path when its coordinate is the end; skips it when
already closed; otherwise closes it and appends its successors.  The fuel
is an artifact of the embedding: the Python loop always terminates, and
the fuel chosen by find_path is never exhausted on the runs the theorems
evaluate. -/
def find_path_loop (s : CityGrid) (endp : Pos) :
    Nat → List Entry → List Pos → Option (List Pos) × CityGrid
  | 0, _, _ => (none, s)
  | _ + 1, [], _ => (none, s)
  | fuel + 1, e :: rest, closed =>
    let best := listMin e rest
    let op2 := removeFirst best (e :: rest)
    if best.2.1 = endp then (some (best.2.2 ++ [best.2.1]), s)
    else if best.2.1 ∈ closed then find_path_loop s endp fuel op2 closed
    else
      find_path_loop s endp fuel
        (op2 ++ successors s endp best.2.1.1 best.2.1.2 best.2.2)
        (best.2.1 :: closed)

/-- Fuel bound for find_path: every run pops one entry per iteration and
pushes at most 9 entries per distinct closed coordinate, so this bound is
comfortable for terminating runs. -/
def findPathFuel (s : CityGrid) : Nat := 9 * s.n * s.m + 10

/-- find_path(start, end) as a state-passing function: the result together
with the object state after the call. -/
def find_pathS (s : CityGrid) (start endp : Pos) : Option (List Pos) × CityGrid :=
  find_path_loop s endp (findPathFuel s) (initialOpen start) []

/-- find_path(start, end): the returned value (a path, or none). -/
def find_path (s : CityGrid) (start endp : Pos) : Option (List Pos) :=
  (find_pathS s start endp).1

/-- One step of the interior-marking loop of build_path_on_grid. -/
def pathMarkStep (g : GridT) (c : Pos) : GridT := setCell g c.1 c.2 Cell.pathMark

/-- build_path_on_grid(ttt_path): mark every interior cell of the path
(Python ttt_path[1:-1]) with *, then the first with B and the last with E.
On an empty path Python raises IndexError at ttt_path[0]; the embedding
returns none for that error, and likewise for an index outside the cell
array, where the Python assignment would raise IndexError. -/
def build_path_on_grid (s : CityGrid) (ttt_path : List Pos) : Option CityGrid :=
  match ttt_path with
  | [] => none
  | c0 :: rest =>
    if (c0 :: rest).all (fun c =>
        decide (c.1 < s.grid.length) && decide (c.2 < (s.grid.getD c.1 []).length)) then
      let g1 := (((c0 :: rest).drop 1).dropLast).foldl pathMarkStep s.grid
      let g2 := setCell g1 c0.1 c0.2 Cell.beginMark
      let lastc := (c0 :: rest).getLastD c0
      some { s with grid := setCell g2 lastc.1 lastc.2 Cell.endMark }
    else none

/-- Row-major list of all coordinates of an n-by-m grid. -/
def positions (n m : Nat) : List Pos :=
  (List.range n).flatMap (fun i => (List.range m).map (fun j => (i, j)))

/-- The candidate cells of the placement scan: coordinates whose state is
# or 0, in row-major order. -/
def candidates (s : CityGrid) : List Pos :=
  (positions s.n s.m).filter (fun q =>
    decide (cellAt s.grid q.1 q.2 = Cell.covered ∨ cellAt s.grid q.1 q.2 = Cell.empty))

/-- The bare select-strict-maximum step the candidate scan performs on a
candidate cell. -/
def selStep (f : Pos → Nat) (acc : Option Pos × Nat) (q : Pos) : Option Pos × Nat :=
  if acc.2 < f q then (some q, f q) else acc

/-- Number of 0 cells of one row. -/
def rowCount (r : List Cell) : Nat := (r.filter (fun c => decide (c = Cell.empty))).length

/-- Number of 0 cells of the whole grid array. -/
def countEmpty (g : GridT) : Nat := (g.map rowCount).sum

/-- Every cell of the array is 0, # or | : the spec data model restricted
to unobstructed grids (no X, and no display overlay symbols). -/
def obstruction_free (g : GridT) : Prop :=
  ∀ row ∈ g, ∀ c ∈ row, c = Cell.empty ∨ c = Cell.covered ∨ c = Cell.tower

instance (g : GridT) : Decidable (obstruction_free g) := by
  unfold obstruction_free; infer_instance

/-- In-bounds coordinate whose cell is # or | : the cells a found path may
traverse. -/
def goodCell (s : CityGrid) (q : Pos) : Prop :=
  q.1 < s.n ∧ q.2 < s.m ∧
    (cellAt s.grid q.1 q.2 = Cell.covered ∨ cellAt s.grid q.1 q.2 = Cell.tower)

/-- Chebyshev distance at most 1. -/
def chebAdj (a b : Pos) : Prop := natAbsDiff a.1 b.1 ≤ 1 ∧ natAbsDiff a.2 b.2 ≤ 1

/-- Invariant of an open-list entry for a search from start: the chain
path + [coordinate] begins at start, all of its later elements are
in-bounds # or | cells, and consecutive elements are Chebyshev adjacent. -/
def entryChain (s : CityGrid) (start : Pos) (e : Entry) : Prop :=
  (e.2.2 ++ [e.2.1]).head? = some start ∧
    (∀ q ∈ (e.2.2 ++ [e.2.1]).tail, goodCell s q) ∧
    List.Chain' chebAdj (e.2.2 ++ [e.2.1])

/-- A 2-by-2 grid of empty cells, radius 1, before placement. -/
def cgE22 : CityGrid :=
  ⟨2, 2, 1, [[Cell.empty, Cell.empty], [Cell.empty, Cell.empty]], []⟩

/-- A 1-by-1 fully obstructed grid. -/
def cgObs11 : CityGrid := ⟨1, 1, 1, [[Cell.obstructed]], []⟩

/-- A 1-by-2 grid whose two cells are towers at (0,0) and (0,1). -/
def cgT12 : CityGrid := ⟨1, 2, 1, [[Cell.tower, Cell.tower]], [(0, 0), (0, 1)]⟩

/-! Basic list access and update lemmas. -/

lemma set_oob {α : Type} : ∀ (l : List α) (i : Nat) (v : α), l.length ≤ i → l.set i v = l
  | [], _, _, _ => rfl
  | _ :: _, 0, _, h => absurd h (by simp)
  | a :: tl, i + 1, v, h => by
      simp only [List.set_cons_succ, List.cons.injEq, true_and]
      exact set_oob tl i v (by simpa using h)

lemma getD_oob {α : Type} : ∀ (l : List α) (i : Nat) (d : α), l.length ≤ i → l.getD i d = d
  | [], _, _, _ => by simp
  | _ :: _, 0, _, h => absurd h (by simp)
  | _ :: tl, i + 1, d, h => by
      simp only [List.getD_cons_succ]
      exact getD_oob tl i d (by simpa using h)

lemma getD_set_self {α : Type} :
    ∀ (l : List α) (i : Nat) (v d : α), i < l.length → (l.set i v).getD i d = v
  | [], i, _, _, h => by simp at h
  | _ :: _, 0, _, _, _ => by simp
  | _ :: tl, i + 1, v, d, h => by
      simp only [List.set_cons_succ, List.getD_cons_succ]
      exact getD_set_self tl i v d (by simpa using h)

lemma getD_set_ne {α : Type} :
    ∀ (l : List α) (i k : Nat) (v d : α), i ≠ k → (l.set i v).getD k d = l.getD k d
  | [], _, _, _, _, _ => by simp
  | _ :: _, 0, 0, _, _, h => absurd rfl h
  | _ :: _, 0, _ + 1, _, _, _ => by simp
  | _ :: _, _ + 1, 0, _, _, _ => by simp
  | _ :: tl, i + 1, k + 1, v, d, h => by
      simp only [List.set_cons_succ, List.getD_cons_succ]
      exact getD_set_ne tl i k v d (by omega)

lemma getD_mem {α : Type} :
    ∀ (l : List α) (i : Nat) (d : α), i < l.length → l.getD i d ∈ l
  | [], i, _, h => by simp at h
  | _ :: _, 0, _, _ => by simp
  | _ :: tl, i + 1, d, h => by
      simp only [List.getD_cons_succ]
      exact List.mem_cons_of_mem _ (getD_mem tl i d (by simpa using h))

lemma mem_set_cases {α : Type} :
    ∀ (l : List α) (i : Nat) (v x : α), x ∈ l.set i v → x = v ∨ x ∈ l
  | [], _, _, _, h => by simp at h
  | _ :: _, 0, _, _, h => by
      rcases List.mem_cons.mp h with h | h
      · exact Or.inl h
      · exact Or.inr (List.mem_cons_of_mem _ h)
  | a :: tl, i + 1, v, x, h => by
      rcases List.mem_cons.mp (by simpa using h) with h | h
      · exact Or.inr (by simp [h])
      · rcases mem_set_cases tl i v x h with h | h
        · exact Or.inl h
        · exact Or.inr (List.mem_cons_of_mem _ h)

lemma mem_rangeFT {a b i : Nat} : i ∈ rangeFT a b ↔ a ≤ i ∧ i < b := by
  simp only [rangeFT, List.mem_map, List.mem_range]
  constructor
  · rintro ⟨k, hk, rfl⟩; omega
  · rintro ⟨h1, h2⟩; exact ⟨i - a, by omega, by omega⟩

/-! Lemmas about cellAt and setCell. -/

lemma cellAt_setCell_ne {g : GridT} {i j x y : Nat} {v : Cell} (h : x ≠ i ∨ y ≠ j) :
    cellAt (setCell g x y v) i j = cellAt g i j := by
  unfold cellAt setCell
  rcases h with h | h
  · rw [getD_set_ne _ _ _ _ _ h]
  · rcases Nat.lt_or_ge x g.length with hx | hx
    · by_cases hxi : x = i
      · subst hxi
        rw [getD_set_self _ _ _ _ hx, getD_set_ne _ _ _ _ _ h]
      · rw [getD_set_ne _ _ _ _ _ hxi]
    · rw [set_oob _ _ _ hx]

lemma cellAt_setCell_self {g : GridT} {i j : Nat} {v : Cell}
    (hi : i < g.length) (hj : j < (g.getD i []).length) :
    cellAt (setCell g i j v) i j = v := by
  unfold cellAt setCell
  rw [getD_set_self _ _ _ _ hi, getD_set_self _ _ _ _ hj]

lemma cellAt_bounds {g : GridT} {i j : Nat} (h : cellAt g i j ≠ Cell.obstructed) :
    i < g.length ∧ j < (g.getD i []).length := by
  constructor
  · by_contra hx
    exact h (by unfold cellAt; rw [getD_oob g i [] (by omega)]; simp)
  · by_contra hx
    exact h (by unfold cellAt; rw [getD_oob (g.getD i []) j Cell.obstructed (by omega)])

lemma length_setCell (g : GridT) (i j : Nat) (v : Cell) :
    (setCell g i j v).length = g.length := by
  unfold setCell; exact List.length_set ..

lemma rows_setCell {g : GridT} {m i j : Nat} {v : Cell}
    (h : ∀ row ∈ g, row.length = m) :
    ∀ row ∈ setCell g i j v, row.length = m := by
  intro row hrow
  rcases Nat.lt_or_ge i g.length with hi | hi
  · rcases mem_set_cases _ _ _ _ hrow with rfl | hrow
    · rw [List.length_set]; exact h _ (getD_mem _ _ _ hi)
    · exact h _ hrow
  · rw [setCell, set_oob _ _ _ hi] at hrow
    exact h _ hrow

/-! Membership characterizations of the scanned coordinate lists. -/

lemma mem_positions {n m : Nat} {p : Pos} :
    p ∈ positions n m ↔ p.1 < n ∧ p.2 < m := by
  rcases p with ⟨i, j⟩
  simp only [positions, List.mem_flatMap, List.mem_map, List.mem_range]
  constructor
  · rintro ⟨a, ha, b, hb, h⟩
    cases h; exact ⟨ha, hb⟩
  · rintro ⟨hi, hj⟩
    exact ⟨i, hi, j, hj, rfl⟩

lemma mem_neighborhood {n m x y r : Nat} {p : Pos} :
    p ∈ neighborhood n m x y r ↔
      (x - r ≤ p.1 ∧ p.1 < min n (x + r + 1)) ∧ (y - r ≤ p.2 ∧ p.2 < min m (y + r + 1)) := by
  rcases p with ⟨i, j⟩
  simp only [neighborhood, List.mem_flatMap, List.mem_map, mem_rangeFT]
  constructor
  · rintro ⟨a, ha, b, hb, h⟩
    cases h; exact ⟨ha, hb⟩
  · rintro ⟨hi, hj⟩
    exact ⟨i, hi, j, hj, rfl⟩

lemma mem_uncovered {s : CityGrid} {p : Pos} :
    p ∈ get_uncovered_blocks s ↔
      p.1 < s.n ∧ p.2 < s.m ∧ cellAt s.grid p.1 p.2 = Cell.empty := by
  rcases p with ⟨i, j⟩
  simp only [get_uncovered_blocks, List.mem_flatMap, List.mem_map, List.mem_filter,
    List.mem_range, decide_eq_true_eq]
  constructor
  · rintro ⟨a, ha, b, ⟨hb, hcell⟩, h⟩
    cases h; exact ⟨ha, hb, hcell⟩
  · rintro ⟨hi, hj, hcell⟩
    exact ⟨i, hi, j, ⟨hj, hcell⟩, rfl⟩

lemma uncovered_nil_iff {s : CityGrid} :
    get_uncovered_blocks s = [] ↔
      ∀ i < s.n, ∀ j < s.m, cellAt s.grid i j ≠ Cell.empty := by
  constructor
  · intro h i hi j hj hcell
    have : (i, j) ∈ get_uncovered_blocks s := mem_uncovered.mpr ⟨hi, hj, hcell⟩
    rw [h] at this; simp at this
  · intro h
    by_contra hne
    obtain ⟨p, hp⟩ := List.exists_mem_of_ne_nil _ hne
    obtain ⟨h1, h2, h3⟩ := mem_uncovered.mp hp
    exact h _ h1 _ h2 h3

lemma mem_candidates {s : CityGrid} {p : Pos} :
    p ∈ candidates s ↔
      p.1 < s.n ∧ p.2 < s.m ∧
        (cellAt s.grid p.1 p.2 = Cell.covered ∨ cellAt s.grid p.1 p.2 = Cell.empty) := by
  simp only [candidates, List.mem_filter, mem_positions, decide_eq_true_eq]
  tauto

/-! Counting 0 cells, and how setCell changes the count. -/

lemma rowCount_set_of_empty :
    ∀ (r : List Cell) (j : Nat) (v : Cell), j < r.length →
      r.getD j Cell.obstructed = Cell.empty → v ≠ Cell.empty →
      rowCount (r.set j v) + 1 = rowCount r
  | [], j, _, hj, _, _ => by simp at hj
  | c :: tl, 0, v, _, hc, hv => by
      simp only [List.getD_cons_zero] at hc
      subst hc
      simp [rowCount, List.filter, hv]
  | c :: tl, j + 1, v, hj, hc, hv => by
      simp only [List.getD_cons_succ] at hc
      have ih := rowCount_set_of_empty tl j v (by simpa using hj) hc hv
      simp only [List.set_cons_succ, rowCount, List.filter]
      cases hd : decide (c = Cell.empty) <;>
        simpa [rowCount] using ih

lemma rowCount_set_of_ne :
    ∀ (r : List Cell) (j : Nat) (v : Cell),
      r.getD j Cell.obstructed ≠ Cell.empty → v ≠ Cell.empty →
      rowCount (r.set j v) = rowCount r
  | [], _, _, _, _ => rfl
  | c :: tl, 0, v, hc, hv => by
      simp only [List.getD_cons_zero] at hc
      simp [rowCount, List.filter, hv, hc]
  | c :: tl, j + 1, v, hc, hv => by
      simp only [List.getD_cons_succ] at hc
      have ih := rowCount_set_of_ne tl j v hc hv
      simp only [List.set_cons_succ, rowCount, List.filter]
      cases hd : decide (c = Cell.empty) <;>
        simpa [rowCount] using ih

lemma countEmpty_set_row :
    ∀ (g : GridT) (i : Nat) (r2 : List Cell), i < g.length →
      countEmpty (g.set i r2) + rowCount (g.getD i []) = countEmpty g + rowCount r2
  | [], i, _, hi => by simp at hi
  | row :: tl, 0, r2, _ => by
      simp [countEmpty]; omega
  | row :: tl, i + 1, r2, hi => by
      have ih := countEmpty_set_row tl i r2 (by simpa using hi)
      simp only [List.set_cons_succ, List.getD_cons_succ, countEmpty, List.map, List.sum_cons]
      simp only [countEmpty] at ih
      omega

lemma countEmpty_setCell_of_empty {g : GridT} {i j : Nat} {v : Cell}
    (hc : cellAt g i j = Cell.empty) (hv : v ≠ Cell.empty) :
    countEmpty (setCell g i j v) + 1 = countEmpty g := by
  obtain ⟨hi, hj⟩ := cellAt_bounds (g := g) (i := i) (j := j) (by rw [hc]; simp)
  have h1 := countEmpty_set_row g i ((g.getD i []).set j v) hi
  have h2 := rowCount_set_of_empty (g.getD i []) j v hj hc hv
  unfold setCell
  omega

lemma countEmpty_setCell_of_ne {g : GridT} {i j : Nat} {v : Cell}
    (hc : cellAt g i j ≠ Cell.empty) (hv : v ≠ Cell.empty) :
    countEmpty (setCell g i j v) = countEmpty g := by
  rcases Nat.lt_or_ge i g.length with hi | hi
  · have h1 := countEmpty_set_row g i ((g.getD i []).set j v) hi
    have h2 := rowCount_set_of_ne (g.getD i []) j v hc hv
    unfold setCell
    omega
  · unfold setCell
    rw [set_oob _ _ _ hi]

lemma countEmpty_coverStep_le (g : GridT) (q : Pos) :
    countEmpty (coverStep g q) ≤ countEmpty g := by
  unfold coverStep
  split
  · next hc =>
      have := countEmpty_setCell_of_empty (g := g) (i := q.1) (j := q.2)
        (v := Cell.covered) hc (by simp)
      omega
  · exact Nat.le_refl _

lemma countEmpty_coverFold_le :
    ∀ (l : List Pos) (g : GridT), countEmpty (l.foldl coverStep g) ≤ countEmpty g
  | [], _ => Nat.le_refl _
  | q :: tl, g => by
      have h1 := countEmpty_coverStep_le g q
      have h2 := countEmpty_coverFold_le tl (coverStep g q)
      simpa using Nat.le_trans h2 h1

lemma countEmpty_coverFold_lt :
    ∀ (l : List Pos) (g : GridT) (q : Pos), q ∈ l → cellAt g q.1 q.2 = Cell.empty →
      countEmpty (l.foldl coverStep g) < countEmpty g
  | [], _, _, hq, _ => by simp at hq
  | hd :: tl, g, q, hq, hcell => by
      by_cases hhd : cellAt g hd.1 hd.2 = Cell.empty
      · have hstep : countEmpty (coverStep g hd) + 1 = countEmpty g := by
          unfold coverStep
          rw [if_pos hhd]
          exact countEmpty_setCell_of_empty hhd (by simp)
        have hrest := countEmpty_coverFold_le tl (coverStep g hd)
        simp only [List.foldl_cons]
        omega
      · have hstep : coverStep g hd = g := by unfold coverStep; rw [if_neg hhd]
        have hqtl : q ∈ tl := by
          rcases List.mem_cons.mp hq with rfl | h
          · exact absurd hcell hhd
          · exact h
        simp only [List.foldl_cons, hstep]
        exact countEmpty_coverFold_lt tl g q hqtl hcell

/-! Fold bridging lemmas: nested loops over ranges versus a single fold
over the flattened, filtered coordinate list. -/

lemma foldl_flatMap {α β γ : Type} (l : List α) (g : α → List β) (f : γ → β → γ) (a : γ) :
    (l.flatMap g).foldl f a = l.foldl (fun acc i => (g i).foldl f acc) a := by
  induction l generalizing a with
  | nil => rfl
  | cons hd tl ih => simp [List.flatMap_cons, List.foldl_append, ih]

lemma foldl_filter {α γ : Type} (P : α → Prop) [DecidablePred P] (f : γ → α → γ) :
    ∀ (l : List α) (a : γ),
      l.foldl (fun acc x => if P x then f acc x else acc) a =
        (l.filter (fun x => decide (P x))).foldl f a
  | [], _ => rfl
  | hd :: tl, a => by
      by_cases h : P hd <;>
        simp [List.filter_cons, h, foldl_filter P f tl]

lemma selStep_pos {f : Pos → Nat} {acc : Option Pos × Nat} {q : Pos} (h : acc.2 < f q) :
    selStep f acc q = (some q, f q) := by
  unfold selStep; rw [if_pos h]

lemma selStep_neg {f : Pos → Nat} {acc : Option Pos × Nat} {q : Pos} (h : ¬ acc.2 < f q) :
    selStep f acc q = acc := by
  unfold selStep; rw [if_neg h]

/-- The candidate scan of best_position is the select-strict-maximum fold
over exactly the row-major list of cells whose state is # or 0. -/
lemma best_position_eq (s : CityGrid) :
    best_position s = (candidates s).foldl (selStep (coverage_score s)) (none, 0) := by
  unfold candidates
  rw [← foldl_filter
    (fun q : Pos => cellAt s.grid q.1 q.2 = Cell.covered ∨ cellAt s.grid q.1 q.2 = Cell.empty)
    (selStep (coverage_score s))]
  unfold positions
  rw [foldl_flatMap]
  simp only [List.foldl_map]
  rfl

lemma selFold_no (f : Pos → Nat) :
    ∀ (l : List Pos) (b : Option Pos) (c : Nat), (∀ q ∈ l, f q ≤ c) →
      l.foldl (selStep f) (b, c) = (b, c)
  | [], _, _, _ => rfl
  | hd :: tl, b, c, h => by
      have hhd : ¬ ((b, c) : Option Pos × Nat).2 < f hd := by
        have := h hd (by simp); simp; omega
      rw [List.foldl_cons, selStep_neg hhd]
      exact selFold_no f tl b c (fun q hq => h q (List.mem_cons_of_mem _ hq))

/-- The strict-improvement fold returns the first element of the list that
attains the maximum value of f, provided some element exceeds the initial
threshold. -/
lemma selFold_max (f : Pos → Nat) :
    ∀ (l : List Pos) (b : Option Pos) (c : Nat), (∃ q ∈ l, c < f q) →
      ∃ p, l.foldl (selStep f) (b, c) = (some p, f p) ∧ p ∈ l ∧ c < f p ∧
        (∀ q ∈ l, f q ≤ f p) ∧
        l.find? (fun q => decide (f p ≤ f q)) = some p := by
  intro l
  induction l with
  | nil => intro b c h; simp at h
  | cons hd tl ih =>
      intro b c h
      by_cases hhd : c < f hd
      · by_cases hex : ∃ q ∈ tl, f hd < f q
        · obtain ⟨p, hfold, hmem, hlt, hmax, hfind⟩ := ih (some hd) (f hd) hex
          refine ⟨p, ?_, List.mem_cons_of_mem _ hmem, by omega, ?_, ?_⟩
          · rw [List.foldl_cons, selStep_pos (by simpa using hhd)]
            exact hfold
          · intro q hq
            rcases List.mem_cons.mp hq with rfl | hq
            · omega
            · exact hmax q hq
          · rw [List.find?_cons_of_neg _ (by simp; omega)]
            exact hfind
        · push_neg at hex
          refine ⟨hd, ?_, by simp, hhd, ?_, ?_⟩
          · rw [List.foldl_cons, selStep_pos (by simpa using hhd)]
            exact selFold_no f tl (some hd) (f hd) hex
          · intro q hq
            rcases List.mem_cons.mp hq with rfl | hq
            · exact Nat.le_refl _
            · exact hex q hq
          · rw [List.find?_cons_of_pos _ (by simp)]
      · rcases h with ⟨q0, hq0, hq0lt⟩
        have hq0tl : q0 ∈ tl := by
          rcases List.mem_cons.mp hq0 with rfl | h
          · omega
          · exact h
        obtain ⟨p, hfold, hmem, hlt, hmax, hfind⟩ := ih b c ⟨q0, hq0tl, hq0lt⟩
        refine ⟨p, ?_, List.mem_cons_of_mem _ hmem, hlt, ?_, ?_⟩
        · rw [List.foldl_cons, selStep_neg (by simpa using hhd)]
          exact hfold
        · intro q hq
          rcases List.mem_cons.mp hq with rfl | hq
          · omega
          · exact hmax q hq
        · rw [List.find?_cons_of_neg _ (by simp; omega)]
          exact hfind

/-- When the scan finds no improvement over the whole suffix. -/
lemma selFold_stay (f : Pos → Nat) (l : List Pos) (hd : Pos)
    (h : ∀ q ∈ l, f q ≤ f hd) :
    l.foldl (selStep f) (some hd, f hd) = (some hd, f hd) :=
  selFold_no f l (some hd) (f hd) h

/-- When uncovered blocks remain, the scan selects a position: the first
candidate (row-major) attaining the maximum coverage score, which is
positive. -/
lemma best_position_spec (s : CityGrid) (h : get_uncovered_blocks s ≠ []) :
    ∃ p, (best_position s).1 = some p ∧ (best_position s).2 = coverage_score s p ∧
      p ∈ candidates s ∧ 0 < coverage_score s p ∧
      (∀ q ∈ candidates s, coverage_score s q ≤ coverage_score s p) ∧
      (candidates s).find? (fun q => decide (coverage_score s p ≤ coverage_score s q)) =
        some p := by
  obtain ⟨u, hu⟩ := List.exists_mem_of_ne_nil _ h
  obtain ⟨h1, h2, h3⟩ := mem_uncovered.mp hu
  have hucand : u ∈ candidates s := mem_candidates.mpr ⟨h1, h2, Or.inr h3⟩
  have hcov : 0 < coverage_score s u := by
    have humem : u ∈ neighborhood s.n s.m u.1 u.2 s.tower_radius := by
      rw [mem_neighborhood]; omega
    have hfmem : u ∈ (neighborhood s.n s.m u.1 u.2 s.tower_radius).filter
        (fun q => decide (cellAt s.grid q.1 q.2 = Cell.empty)) :=
      List.mem_filter.mpr ⟨humem, by simp [h3]⟩
    have := List.length_pos.mpr (List.ne_nil_of_mem hfmem)
    simpa [coverage_score, get_coverage] using this
  obtain ⟨p, hfold, hmem, hlt, hmax, hfind⟩ :=
    selFold_max (coverage_score s) (candidates s) none 0 ⟨u, hucand, hcov⟩
  rw [best_position_eq]
  exact ⟨p, by rw [hfold], by rw [hfold], hmem, hlt, hmax, hfind⟩

/-- A well-formed grid has at most n * m empty cells. -/
lemma countEmpty_le (s : CityGrid) (hwf : WF s) : countEmpty s.grid ≤ s.n * s.m := by
  obtain ⟨hlen, hrow⟩ := hwf
  have hbound : ∀ x ∈ s.grid.map rowCount, x ≤ s.m := by
    intro x hx
    obtain ⟨row, hrowmem, rfl⟩ := List.mem_map.mp hx
    calc rowCount row ≤ row.length := List.length_filter_le _ _
      _ = s.m := hrow row hrowmem
  have h2 := List.sum_le_card_nsmul _ _ hbound
  unfold countEmpty
  calc (s.grid.map rowCount).sum ≤ (s.grid.map rowCount).length • s.m := h2
    _ = s.n * s.m := by rw [List.length_map, hlen, smul_eq_mul]

/-! Preservation lemmas for place_tower. -/

lemma length_coverStep (g : GridT) (q : Pos) : (coverStep g q).length = g.length := by
  unfold coverStep; split
  · exact length_setCell ..
  · rfl

lemma length_coverFold : ∀ (l : List Pos) (g : GridT), (l.foldl coverStep g).length = g.length
  | [], _ => rfl
  | hd :: tl, g => by
      rw [List.foldl_cons, length_coverFold tl (coverStep g hd), length_coverStep]

lemma rows_coverFold {m : Nat} :
    ∀ (l : List Pos) (g : GridT), (∀ row ∈ g, row.length = m) →
      ∀ row ∈ l.foldl coverStep g, row.length = m
  | [], _, h => h
  | hd :: tl, g, h => by
      have hstep : ∀ row ∈ coverStep g hd, row.length = m := by
        unfold coverStep; split
        · exact rows_setCell h
        · exact h
      simpa using rows_coverFold tl (coverStep g hd) hstep

lemma place_tower_n (s : CityGrid) (x y r : Nat) : (place_tower s x y r).n = s.n := by
  unfold place_tower; split <;> rfl

lemma place_tower_m (s : CityGrid) (x y r : Nat) : (place_tower s x y r).m = s.m := by
  unfold place_tower; split <;> rfl

lemma place_tower_radius (s : CityGrid) (x y r : Nat) :
    (place_tower s x y r).tower_radius = s.tower_radius := by
  unfold place_tower; split <;> rfl

lemma WF_place_tower {s : CityGrid} (hwf : WF s) (x y r : Nat) : WF (place_tower s x y r) := by
  obtain ⟨hlen, hrow⟩ := hwf
  unfold place_tower
  split
  · refine ⟨?_, ?_⟩
    · show ((neighborhood s.n s.m x y r).foldl coverStep (setCell s.grid x y Cell.tower)).length = s.n
      rw [length_coverFold, length_setCell]
      exact hlen
    · exact rows_coverFold _ _ (rows_setCell hrow)
  · exact ⟨hlen, hrow⟩

lemma obstruction_free_setCell {g : GridT} {i j : Nat} {v : Cell}
    (h : obstruction_free g) (hv : v = Cell.empty ∨ v = Cell.covered ∨ v = Cell.tower) :
    obstruction_free (setCell g i j v) := by
  intro row hrow c hc
  rcases Nat.lt_or_ge i g.length with hi | hi
  · rcases mem_set_cases _ _ _ _ hrow with rfl | hrow
    · rcases mem_set_cases _ _ _ _ hc with rfl | hc
      · exact hv
      · exact h _ (getD_mem _ _ _ hi) _ hc
    · exact h _ hrow _ hc
  · rw [setCell, set_oob _ _ _ hi] at hrow
    exact h _ hrow _ hc

lemma obstruction_free_coverFold :
    ∀ (l : List Pos) (g : GridT), obstruction_free g → obstruction_free (l.foldl coverStep g)
  | [], _, h => h
  | hd :: tl, g, h => by
      have hstep : obstruction_free (coverStep g hd) := by
        unfold coverStep; split
        · exact obstruction_free_setCell h (by simp)
        · exact h
      simpa using obstruction_free_coverFold tl (coverStep g hd) hstep

lemma obstruction_free_place_tower {s : CityGrid} (h : obstruction_free s.grid) (x y r : Nat) :
    obstruction_free (place_tower s x y r).grid := by
  unfold place_tower
  split
  · exact obstruction_free_coverFold _ _ (obstruction_free_setCell h (by simp))
  · exact h

/-- Committing the scanned position strictly decreases the number of 0
cells: either the committed cell itself was 0, or its positive score
guarantees a 0 cell in its neighborhood that the covering loop marks. -/
lemma place_decreases {s : CityGrid} {p : Pos}
    (hmem : p ∈ candidates s) (hcov : 0 < coverage_score s p) :
    countEmpty (place_tower s p.1 p.2 s.tower_radius).grid < countEmpty s.grid := by
  obtain ⟨h1, h2, hstate⟩ := mem_candidates.mp hmem
  have hguard : cellAt s.grid p.1 p.2 ≠ Cell.tower ∧ cellAt s.grid p.1 p.2 ≠ Cell.obstructed := by
    rcases hstate with h | h <;> rw [h] <;> exact ⟨by simp, by simp⟩
  unfold place_tower
  rw [if_pos hguard]
  show countEmpty ((neighborhood s.n s.m p.1 p.2 s.tower_radius).foldl coverStep
      (setCell s.grid p.1 p.2 Cell.tower)) < countEmpty s.grid
  rcases hstate with hcell | hcell
  · have hset : countEmpty (setCell s.grid p.1 p.2 Cell.tower) = countEmpty s.grid :=
      countEmpty_setCell_of_ne (by rw [hcell]; simp) (by simp)
    obtain ⟨q, hqmem, hqcell⟩ : ∃ q ∈ neighborhood s.n s.m p.1 p.2 s.tower_radius,
        cellAt s.grid q.1 q.2 = Cell.empty := by
      have hne : ((neighborhood s.n s.m p.1 p.2 s.tower_radius).filter
          (fun q => decide (cellAt s.grid q.1 q.2 = Cell.empty))) ≠ [] := by
        simp only [coverage_score, get_coverage] at hcov
        exact List.length_pos.mp hcov
      obtain ⟨q, hq⟩ := List.exists_mem_of_ne_nil _ hne
      have hq2 := List.mem_filter.mp hq
      exact ⟨q, hq2.1, by simpa using hq2.2⟩
    have hqnep : p.1 ≠ q.1 ∨ p.2 ≠ q.2 := by
      by_contra hcon
      push_neg at hcon
      rw [hcon.1, hcon.2, hqcell] at hcell
      cases hcell
    have hq3 : cellAt (setCell s.grid p.1 p.2 Cell.tower) q.1 q.2 = Cell.empty := by
      rw [cellAt_setCell_ne hqnep]; exact hqcell
    calc countEmpty ((neighborhood s.n s.m p.1 p.2 s.tower_radius).foldl coverStep
          (setCell s.grid p.1 p.2 Cell.tower))
        < countEmpty (setCell s.grid p.1 p.2 Cell.tower) :=
          countEmpty_coverFold_lt _ _ q hqmem hq3
      _ = countEmpty s.grid := hset
  · have hset : countEmpty (setCell s.grid p.1 p.2 Cell.tower) + 1 = countEmpty s.grid :=
      countEmpty_setCell_of_empty hcell (by simp)
    have hfold := countEmpty_coverFold_le (neighborhood s.n s.m p.1 p.2 s.tower_radius)
      (setCell s.grid p.1 p.2 Cell.tower)
    omega

/-- Master termination lemma: with fuel exceeding the number of 0 cells,
the placement loop reaches a state with no uncovered blocks, preserving
well-formedness and obstruction-freeness. -/
lemma loop_reaches :
    ∀ (fuel : Nat) (s : CityGrid), WF s → countEmpty s.grid < fuel →
      ∃ s2, place_optimal_towers_loop fuel s = some s2 ∧ get_uncovered_blocks s2 = [] ∧
        WF s2 ∧ (obstruction_free s.grid → obstruction_free s2.grid)
  | 0, s, _, h => absurd h (by omega)
  | fuel + 1, s, hwf, hcount => by
      by_cases hun : get_uncovered_blocks s = []
      · refine ⟨s, ?_, hun, hwf, fun h => h⟩
        simp [place_optimal_towers_loop, hun]
      · obtain ⟨p, hbest, _, hmem, hcov, _, _⟩ := best_position_spec s hun
        have hdec := place_decreases hmem hcov
        have hwf2 := WF_place_tower hwf p.1 p.2 s.tower_radius
        obtain ⟨s2, hloop, hun2, hwf3, hobs⟩ :=
          loop_reaches fuel (place_tower s p.1 p.2 s.tower_radius) hwf2 (by omega)
        refine ⟨s2, ?_, hun2, hwf3,
          fun hobs0 => hobs (obstruction_free_place_tower hobs0 p.1 p.2 s.tower_radius)⟩
        simp only [place_optimal_towers_loop, hun, if_false, hbest, display_info]
        simpa [display_info] using hloop

/-! Lemmas about the ad-hoc priority selection of find_path. -/

lemma listMin_cons (e hd : Entry) (tl : List Entry) :
    listMin e (hd :: tl) = listMin (if entryLtB hd e then hd else e) tl := by
  unfold listMin; rw [List.foldl_cons]

lemma listMin_mem : ∀ (l : List Entry) (e : Entry), listMin e l ∈ e :: l
  | [], e => by simp [listMin]
  | hd :: tl, e => by
      rw [listMin_cons]
      by_cases h : entryLtB hd e = true
      · rw [if_pos h]
        rcases List.mem_cons.mp (listMin_mem tl hd) with h2 | h2
        · simp [h2]
        · simp [h2]
      · rw [if_neg h]
        rcases List.mem_cons.mp (listMin_mem tl e) with h2 | h2
        · simp [h2]
        · simp [h2]

lemma entryLtB_true_fst {e f : Entry} (h : entryLtB e f = true) : e.1 ≤ f.1 := by
  by_contra hcon
  push_neg at hcon
  have h1 : ¬ e.1 < f.1 := by omega
  have h2 : ¬ e.1 = f.1 := by omega
  unfold entryLtB at h
  simp [h1, h2] at h

lemma entryLtB_false_fst {e f : Entry} (h : entryLtB e f = false) : f.1 ≤ e.1 := by
  by_contra hcon
  push_neg at hcon
  unfold entryLtB at h
  simp [hcon] at h

/-- The popped entry of each find_path iteration carries the minimal
f-score of the open list. -/
lemma listMin_fst_le : ∀ (l : List Entry) (e : Entry), ∀ f ∈ e :: l, (listMin e l).1 ≤ f.1
  | [], e, f, hf => by
      rcases List.mem_cons.mp hf with rfl | h
      · simp [listMin]
      · simp at h
  | hd :: tl, e, f, hf => by
      rw [listMin_cons]
      by_cases h : entryLtB hd e = true
      · rw [if_pos h]
        rcases List.mem_cons.mp hf with rfl | hf2
        · calc (listMin hd tl).1 ≤ hd.1 := listMin_fst_le tl hd hd (by simp)
            _ ≤ f.1 := entryLtB_true_fst h
        · exact listMin_fst_le tl hd f hf2
      · rw [if_neg h]
        have hfalse : entryLtB hd e = false := by
          revert h; cases entryLtB hd e <;> simp
        rcases List.mem_cons.mp hf with rfl | hf2
        · exact listMin_fst_le tl f f (by simp)
        · rcases List.mem_cons.mp hf2 with rfl | hf3
          · calc (listMin e tl).1 ≤ e.1 := listMin_fst_le tl e e (by simp)
              _ ≤ f.1 := entryLtB_false_fst hfalse
          · exact listMin_fst_le tl e f (List.mem_cons_of_mem _ hf3)

lemma removeFirst_subset : ∀ (l : List Entry) (e x : Entry), x ∈ removeFirst e l → x ∈ l
  | [], _, _, h => by simp [removeFirst] at h
  | hd :: tl, e, x, h => by
      unfold removeFirst at h
      by_cases he : hd = e
      · rw [if_pos he] at h
        exact List.mem_cons_of_mem _ h
      · rw [if_neg he] at h
        rcases List.mem_cons.mp h with rfl | h2
        · simp
        · exact List.mem_cons_of_mem _ (removeFirst_subset tl e x h2)

/-- Characterization of the successor entries generated by an expansion. -/
lemma mem_successors {s : CityGrid} {endp : Pos} {x y : Nat} {path : List Pos} {e : Entry} :
    e ∈ successors s endp x y path ↔
      ∃ i j, e = (path.length + 1 + natAbsDiff i endp.1 + natAbsDiff j endp.2, (i, j),
          path ++ [(x, y)]) ∧
        x - 1 ≤ i ∧ i < min s.n (x + 2) ∧ y - 1 ≤ j ∧ j < min s.m (y + 2) ∧
        (i ≠ x ∨ j ≠ y) ∧
        (cellAt s.grid i j = Cell.covered ∨ cellAt s.grid i j = Cell.tower) := by
  constructor
  · intro h
    simp only [successors, List.mem_flatMap, List.mem_map, List.mem_filter, mem_rangeFT] at h
    obtain ⟨i, hi, j, hj, he⟩ := h
    have hj1 := hj.1
    have hj2 := hj.2
    rw [Bool.and_eq_true] at hj2
    have hj4 : cellAt s.grid i j = Cell.covered ∨ cellAt s.grid i j = Cell.tower :=
      of_decide_eq_true hj2.2
    have hj3 := hj2.1
    rw [Bool.or_eq_true] at hj3
    have hj5 : i ≠ x ∨ j ≠ y := by
      rcases hj3 with h3 | h3
      · exact Or.inl (of_decide_eq_true h3)
      · exact Or.inr (of_decide_eq_true h3)
    exact ⟨i, j, he.symm, hi.1, hi.2, hj1.1, hj1.2, hj5, hj4⟩
  · rintro ⟨i, j, rfl, h1, h2, h3, h4, h5, h6⟩
    simp only [successors, List.mem_flatMap, List.mem_map, List.mem_filter, mem_rangeFT]
    refine ⟨i, ⟨h1, h2⟩, j, ⟨⟨h3, h4⟩, ?_⟩, rfl⟩
    rw [Bool.and_eq_true, Bool.or_eq_true]
    refine ⟨?_, decide_eq_true h6⟩
    rcases h5 with h5 | h5
    · exact Or.inl (decide_eq_true h5)
    · exact Or.inr (decide_eq_true h5)

lemma head?_append_left {α : Type} (l l2 : List α) (h : l ≠ []) :
    (l ++ l2).head? = l.head? := by
  cases l with
  | nil => exact absurd rfl h
  | cons a tl => rfl

lemma tail_append_left {α : Type} (l l2 : List α) (h : l ≠ []) :
    (l ++ l2).tail = l.tail ++ l2 := by
  cases l with
  | nil => exact absurd rfl h
  | cons a tl => rfl

/-- Expansion preserves the path invariant: each successor entry extends
the chain of the expanded entry by one Chebyshev-adjacent in-bounds
covered-or-tower coordinate. -/
lemma entryChain_successors {s : CityGrid} {start endp : Pos} {best : Entry}
    (hb : entryChain s start best) {e : Entry}
    (he : e ∈ successors s endp best.2.1.1 best.2.1.2 best.2.2) :
    entryChain s start e := by
  obtain ⟨i, j, rfl, h1, h2, h3, h4, h5, h6⟩ := mem_successors.mp he
  obtain ⟨hhead, htail, hchain⟩ := hb
  have hxy : ((best.2.1.1, best.2.1.2) : Pos) = best.2.1 := rfl
  rw [hxy]
  have hCne : best.2.2 ++ [best.2.1] ≠ [] := by simp
  refine ⟨?_, ?_, ?_⟩
  · show ((best.2.2 ++ [best.2.1]) ++ [(i, j)]).head? = some start
    rw [head?_append_left _ _ hCne]
    exact hhead
  · show ∀ q ∈ ((best.2.2 ++ [best.2.1]) ++ [(i, j)]).tail, goodCell s q
    rw [tail_append_left _ _ hCne]
    intro q hq
    rcases List.mem_append.mp hq with hq | hq
    · exact htail q hq
    · have hq2 : q = (i, j) := by simpa using hq
      subst hq2
      refine ⟨by omega, by omega, h6⟩
  · show List.Chain' chebAdj ((best.2.2 ++ [best.2.1]) ++ [(i, j)])
    rw [List.chain'_append]
    refine ⟨hchain, List.chain'_singleton _, ?_⟩
    intro a ha b hb2
    rw [List.getLast?_concat] at ha
    have ha2 : best.2.1 = a := by simpa using ha
    have hb3 : ((i, j) : Pos) = b := by simpa using hb2
    subst ha2; subst hb3
    constructor
    · show natAbsDiff best.2.1.1 i ≤ 1
      unfold natAbsDiff
      omega
    · show natAbsDiff best.2.1.2 j ≤ 1
      unfold natAbsDiff
      omega

/-- Along any run of the search loop whose open-list entries all satisfy
the path invariant, a returned path begins at start, continues through
in-bounds covered-or-tower cells, and is a Chebyshev-adjacent chain. -/
lemma find_path_loop_chain (s : CityGrid) (start endp : Pos) :
    ∀ (fuel : Nat) (op : List Entry) (closed : List Pos) (p : List Pos),
      (∀ e ∈ op, entryChain s start e) →
      (find_path_loop s endp fuel op closed).1 = some p →
      p.head? = some start ∧ (∀ q ∈ p.tail, goodCell s q) ∧ List.Chain' chebAdj p
  | 0, op, closed, p, hinv, h => by simp [find_path_loop] at h
  | fuel + 1, [], closed, p, hinv, h => by simp [find_path_loop] at h
  | fuel + 1, e :: rest, closed, p, hinv, h => by
      simp only [find_path_loop] at h
      have hbchain : entryChain s start (listMin e rest) := hinv _ (listMin_mem rest e)
      by_cases hend : (listMin e rest).2.1 = endp
      · rw [if_pos hend] at h
        have hp : p = (listMin e rest).2.2 ++ [(listMin e rest).2.1] := by
          simpa using h.symm
        subst hp
        exact hbchain
      · rw [if_neg hend] at h
        by_cases hcl : (listMin e rest).2.1 ∈ closed
        · rw [if_pos hcl] at h
          exact find_path_loop_chain s start endp fuel _ closed p
            (fun e2 he2 => hinv e2 (removeFirst_subset _ _ _ he2)) h
        · rw [if_neg hcl] at h
          refine find_path_loop_chain s start endp fuel _ _ p ?_ h
          intro e2 he2
          rcases List.mem_append.mp he2 with he2 | he2
          · exact hinv e2 (removeFirst_subset _ _ _ he2)
          · exact entryChain_successors hbchain he2

/-- Kernel fact for the path-shape claim: any path returned by find_path
starts at start, and all of its later coordinates are in-bounds # or |
cells of the unchanged grid; consecutive coordinates are Chebyshev
adjacent. -/
lemma find_path_good (s : CityGrid) (start endp : Pos) (p : List Pos)
    (h : find_path s start endp = some p) :
    p.head? = some start ∧ (∀ q ∈ p.tail, goodCell s q) ∧ List.Chain' chebAdj p := by
  have hinv : ∀ e ∈ initialOpen start, entryChain s start e := by
    intro e he
    have he2 : e = ((0 : Nat), start, ([] : List Pos)) := by simpa [initialOpen] using he
    subst he2
    refine ⟨rfl, ?_, ?_⟩
    · intro q hq; simp at hq
    · exact List.chain'_singleton _
  exact find_path_loop_chain s start endp (findPathFuel s) (initialOpen start) [] p hinv h

/-- The search loop never writes the object state. -/
lemma find_path_loop_snd (s : CityGrid) (endp : Pos) :
    ∀ (fuel : Nat) (op : List Entry) (closed : List Pos),
      (find_path_loop s endp fuel op closed).2 = s
  | 0, _, _ => rfl
  | _ + 1, [], _ => rfl
  | fuel + 1, e :: rest, closed => by
      simp only [find_path_loop]
      by_cases hend : (listMin e rest).2.1 = endp
      · rw [if_pos hend]
      · rw [if_neg hend]
        by_cases hcl : (listMin e rest).2.1 ∈ closed
        · rw [if_pos hcl]; exact find_path_loop_snd s endp fuel _ _
        · rw [if_neg hcl]; exact find_path_loop_snd s endp fuel _ _

/-! Lemmas about build_path_on_grid. -/

lemma getLastD_mem {α : Type} (l : List α) (a : α) (h : l ≠ []) : l.getLastD a ∈ l := by
  rw [List.getLastD_eq_getLast?, List.getLast?_eq_getLast l h]
  simp only [Option.getD_some]
  exact List.getLast_mem h

lemma pathMarkFold_frame :
    ∀ (l : List Pos) (g : GridT) (i j : Nat), (∀ c ∈ l, c.1 ≠ i ∨ c.2 ≠ j) →
      cellAt (l.foldl pathMarkStep g) i j = cellAt g i j
  | [], _, _, _, _ => rfl
  | hd :: tl, g, i, j, h => by
      rw [List.foldl_cons,
        pathMarkFold_frame tl _ i j (fun c hc => h c (List.mem_cons_of_mem _ hc))]
      exact cellAt_setCell_ne (h hd (by simp))

/-- Cells not on the annotated path keep their state. -/
lemma build_path_frame {s s2 : CityGrid} {p : List Pos} (h : build_path_on_grid s p = some s2)
    {i j : Nat} (hoff : ∀ c ∈ p, c.1 ≠ i ∨ c.2 ≠ j) :
    cellAt s2.grid i j = cellAt s.grid i j := by
  cases p with
  | nil => simp [build_path_on_grid] at h
  | cons c0 rest =>
      simp only [build_path_on_grid] at h
      by_cases hall : ((c0 :: rest).all fun c =>
          decide (c.1 < s.grid.length) && decide (c.2 < (s.grid.getD c.1 []).length)) = true
      · rw [if_pos hall] at h
        have hs2 : s2.grid =
            setCell (setCell ((((c0 :: rest).drop 1).dropLast).foldl pathMarkStep s.grid)
                c0.1 c0.2 Cell.beginMark)
              ((c0 :: rest).getLastD c0).1 ((c0 :: rest).getLastD c0).2 Cell.endMark :=
          (congrArg CityGrid.grid (Option.some.inj h)).symm
        rw [hs2]
        have hlast : (c0 :: rest).getLastD c0 ∈ c0 :: rest :=
          getLastD_mem _ _ (by simp)
        rw [cellAt_setCell_ne (hoff _ hlast)]
        rw [cellAt_setCell_ne (hoff c0 (by simp))]
        refine pathMarkFold_frame _ _ i j ?_
        intro c hc
        refine hoff c ?_
        exact ((List.dropLast_sublist _).trans (List.drop_sublist 1 _)).mem hc
      · rw [if_neg hall] at h
        cases h

lemma mem_getD {α : Type} {l : List α} {x : α} (h : x ∈ l) (d : α) :
    ∃ i, i < l.length ∧ l.getD i d = x := by
  obtain ⟨i, hi, hx⟩ := List.mem_iff_getElem.mp h
  refine ⟨i, hi, ?_⟩
  rw [List.getD_eq_getElem?_getD, List.getElem?_eq_getElem hi]
  simpa using hx

/-- C1: for every well-formed grid with zero obstructed cells (in the
data model of the spec: every cell 0, # or |), place_optimal_towers
completes and afterwards every cell is # (Covered) or | (Station); no 0
(Empty) cell remains.  The reason for each claim: the missing renderer
display_info is spec-modelled as the identity on the state. -/
theorem c1_no_empty_after_placement (s : CityGrid) (hwf : WF s)
    (hfree : obstruction_free s.grid) :
    ∃ s2, place_optimal_towers s = some s2 ∧
      ∀ row ∈ s2.grid, ∀ c ∈ row, c = Cell.covered ∨ c = Cell.tower := by
  obtain ⟨s2, hloop, hun, hwf2, hobs⟩ :=
    loop_reaches (s.n * s.m + 1) s hwf (by have := countEmpty_le s hwf; omega)
  refine ⟨s2, hloop, ?_⟩
  intro row hrow c hc
  rcases hobs hfree row hrow c hc with h | h | h
  · exfalso
    obtain ⟨i, hi, hrowD⟩ := mem_getD hrow ([] : List Cell)
    obtain ⟨j, hj, hcD⟩ := mem_getD hc Cell.obstructed
    have hcell : cellAt s2.grid i j = Cell.empty := by
      unfold cellAt; rw [hrowD, hcD, h]
    have h1 : i < s2.n := by rw [← hwf2.1]; exact hi
    have h2 : j < s2.m := by
      have := hwf2.2 row hrow; omega
    exact (uncovered_nil_iff.mp hun i h1 j h2) hcell
  · exact Or.inl h
  · exact Or.inr h

/-- Witness for C1 on a concrete 2-by-2 empty grid. -/
theorem c1_witness :
    WF cgE22 ∧ obstruction_free cgE22.grid ∧
      ∃ s2, place_optimal_towers cgE22 = some s2 ∧
        ∀ row ∈ s2.grid, ∀ c ∈ row, c = Cell.covered ∨ c = Cell.tower :=
  ⟨by decide, by decide, c1_no_empty_after_placement cgE22 (by decide) (by decide)⟩

/-- C2: place_optimal_towers terminates for every well-formed initial
state: the loop with fuel n * m + 1 completes with no uncovered block
left, each productive iteration strictly decreases the number of 0 cells
(covers at least one previously-uncovered cell), and on a 100 percent
obstructed grid the loop exits on its first iteration with the state (so
also the station registry) unchanged. -/
theorem c2_placement_terminates (s : CityGrid) (hwf : WF s) :
    (∃ s2, place_optimal_towers s = some s2 ∧ get_uncovered_blocks s2 = []) ∧
    (get_uncovered_blocks s ≠ [] →
      ∃ p, (best_position s).1 = some p ∧
        countEmpty (place_tower s p.1 p.2 s.tower_radius).grid < countEmpty s.grid ∧
        ∀ fuel, place_optimal_towers_loop (fuel + 1) s =
          place_optimal_towers_loop fuel (place_tower s p.1 p.2 s.tower_radius)) ∧
    ((∀ row ∈ s.grid, ∀ c ∈ row, c = Cell.obstructed) →
      place_optimal_towers s = some s ∧
        ∀ fuel, place_optimal_towers_loop (fuel + 1) s = some s) := by
  refine ⟨?_, ?_, ?_⟩
  · obtain ⟨s2, hloop, hun, _, _⟩ :=
      loop_reaches (s.n * s.m + 1) s hwf (by have := countEmpty_le s hwf; omega)
    exact ⟨s2, hloop, hun⟩
  · intro hun
    obtain ⟨p, hbest, _, hmem, hcov, _, _⟩ := best_position_spec s hun
    refine ⟨p, hbest, place_decreases hmem hcov, ?_⟩
    intro fuel
    simp only [place_optimal_towers_loop, hun, if_false, hbest, display_info]
  · intro hall
    have hun : get_uncovered_blocks s = [] := by
      rw [uncovered_nil_iff]
      intro i hi j hj hcell
      have hb := cellAt_bounds (g := s.grid) (i := i) (j := j) (by rw [hcell]; simp)
      have hrow := getD_mem s.grid i [] hb.1
      have hcm := getD_mem (s.grid.getD i []) j Cell.obstructed hb.2
      have hobs := hall _ hrow _ hcm
      unfold cellAt at hcell
      rw [hobs] at hcell
      cases hcell
    constructor
    · unfold place_optimal_towers
      simp [place_optimal_towers_loop, hun]
    · intro fuel
      simp [place_optimal_towers_loop, hun]

/-- Witness for C2: the 2-by-2 empty grid terminates fully covered with a
strictly productive first iteration, and the fully obstructed 1-by-1 grid
exits immediately unchanged. -/
theorem c2_witness :
    (∃ s2, place_optimal_towers cgE22 = some s2 ∧ get_uncovered_blocks s2 = []) ∧
    (∃ p, (best_position cgE22).1 = some p ∧
      countEmpty (place_tower cgE22 p.1 p.2 cgE22.tower_radius).grid <
        countEmpty cgE22.grid ∧
      ∀ fuel, place_optimal_towers_loop (fuel + 1) cgE22 =
        place_optimal_towers_loop fuel (place_tower cgE22 p.1 p.2 cgE22.tower_radius)) ∧
    place_optimal_towers cgObs11 = some cgObs11 :=
  ⟨(c2_placement_terminates cgE22 (by decide)).1,
   (c2_placement_terminates cgE22 (by decide)).2.1 (by decide),
   ((c2_placement_terminates cgObs11 (by decide)).2.2 (by decide)).1⟩

/-- C5: whenever the placement loop body runs (uncovered blocks remain),
the scan is the strict-maximum fold over exactly the row-major list of
cells whose state is # or 0 (candidates), it selects a candidate with
maximum coverage score, the selected candidate is the first candidate in
row-major order attaining that maximum (find? returns the first match),
and the loop commits a tower exactly at the selected cell. -/
theorem c5_scan_first_argmax (s : CityGrid) (h : get_uncovered_blocks s ≠ []) :
    best_position s = (candidates s).foldl (selStep (coverage_score s)) (none, 0) ∧
    ∃ p, (best_position s).1 = some p ∧
      (best_position s).2 = coverage_score s p ∧
      p ∈ candidates s ∧
      (∀ q ∈ candidates s, coverage_score s q ≤ coverage_score s p) ∧
      (candidates s).find?
        (fun q => decide (coverage_score s p ≤ coverage_score s q)) = some p ∧
      ∀ fuel, place_optimal_towers_loop (fuel + 1) s =
        place_optimal_towers_loop fuel (place_tower s p.1 p.2 s.tower_radius) := by
  refine ⟨best_position_eq s, ?_⟩
  obtain ⟨p, h1, h2, h3, _, h5, h6⟩ := best_position_spec s h
  refine ⟨p, h1, h2, h3, h5, h6, ?_⟩
  intro fuel
  simp only [place_optimal_towers_loop, h, if_false, h1, display_info]

/-- Witness for C5 on the 2-by-2 empty grid. -/
theorem c5_witness :
    get_uncovered_blocks cgE22 ≠ [] ∧
      (best_position cgE22 =
        (candidates cgE22).foldl (selStep (coverage_score cgE22)) (none, 0) ∧
      ∃ p, (best_position cgE22).1 = some p ∧
        (best_position cgE22).2 = coverage_score cgE22 p ∧
        p ∈ candidates cgE22 ∧
        (∀ q ∈ candidates cgE22, coverage_score cgE22 q ≤ coverage_score cgE22 p) ∧
        (candidates cgE22).find?
          (fun q => decide (coverage_score cgE22 p ≤ coverage_score cgE22 q)) = some p ∧
        ∀ fuel, place_optimal_towers_loop (fuel + 1) cgE22 =
          place_optimal_towers_loop fuel
            (place_tower cgE22 p.1 p.2 cgE22.tower_radius)) :=
  ⟨by decide, c5_scan_first_argmax cgE22 (by decide)⟩

/-- C8: for every grid state and every coordinate, find_path with start
equal to end returns the single-element path containing just that
coordinate: the initial entry is popped first and its coordinate already
equals the end. -/
theorem c8_start_eq_end (s : CityGrid) (st : Pos) :
    find_path s st st = some [st] := by
  unfold find_path find_pathS findPathFuel initialOpen
  rw [show 9 * s.n * s.m + 10 = (9 * s.n * s.m + 9) + 1 from rfl]
  simp [find_path_loop, listMin]

/-- C9: find_path is read-only.  The search loop threads the object state
and returns it untouched at every exit, so after the call the cell array,
both dimensions, the tower radius and the tower registry are exactly as
before. -/
theorem c9_find_path_read_only (s : CityGrid) (st en : Pos) :
    (find_pathS s st en).2 = s ∧
    (find_pathS s st en).2.grid = s.grid ∧
    (find_pathS s st en).2.n = s.n ∧
    (find_pathS s st en).2.m = s.m ∧
    (find_pathS s st en).2.tower_radius = s.tower_radius ∧
    (find_pathS s st en).2.towers = s.towers := by
  have h : (find_pathS s st en).2 = s := find_path_loop_snd s en (findPathFuel s) _ _
  exact ⟨h, by rw [h], by rw [h], by rw [h], by rw [h], by rw [h]⟩

/-- Counterexample to C6 as stated: on the 2-by-2 grid, find_path called
with start = end = (5,5) returns the path [(5,5)] whose only coordinate
lies outside the grid bounds; the start coordinate is returned without any
validation. -/
theorem c6_counterexample :
    find_path cgE22 (5, 5) (5, 5) = some [(5, 5)] ∧ ¬ (5 < cgE22.n) :=
  ⟨by decide, by decide⟩

/-- C6 amended: every returned path begins exactly with the start
coordinate, which is not validated and may lie out of bounds; every later
coordinate is in bounds with cell state # or | at call time (this covers
the end whenever it differs from the start); consecutive entries are
within Chebyshev distance 1 of each other. -/
theorem c6_path_shape (s : CityGrid) (st en : Pos) (p : List Pos)
    (h : find_path s st en = some p) :
    p.head? = some st ∧
    (∀ q ∈ p.tail, q.1 < s.n ∧ q.2 < s.m ∧
      (cellAt s.grid q.1 q.2 = Cell.covered ∨ cellAt s.grid q.1 q.2 = Cell.tower)) ∧
    List.Chain' chebAdj p := by
  obtain ⟨h1, h2, h3⟩ := find_path_good s st en p h
  exact ⟨h1, fun q hq => h2 q hq, h3⟩

/-- Witness for C6 on a found tower-to-tower path of the 1-by-2 grid. -/
theorem c6_witness :
    find_path cgT12 (0, 0) (0, 1) = some [(0, 0), (0, 1)] ∧
    (([(0, 0), (0, 1)] : List Pos).head? = some (0, 0) ∧
      (∀ q ∈ ([(0, 0), (0, 1)] : List Pos).tail, q.1 < cgT12.n ∧ q.2 < cgT12.m ∧
        (cellAt cgT12.grid q.1 q.2 = Cell.covered ∨
          cellAt cgT12.grid q.1 q.2 = Cell.tower)) ∧
      List.Chain' chebAdj [(0, 0), (0, 1)]) :=
  ⟨by decide, c6_path_shape cgT12 (0, 0) (0, 1) [(0, 0), (0, 1)] (by decide)⟩

/-- Counterexample to C7 as stated: the initial frontier entry of a search
from (0,0) towards end (5,5) is an entry for coordinate (0,0) reached
after 0 edges, but it carries priority key 0, not
0 + manhattan((0,0),(5,5)) = 10. -/
theorem c7_counterexample :
    ((0, ((0, 0) : Pos), ([] : List Pos)) ∈ initialOpen (0, 0)) ∧
    ¬ ((0 : Nat) = ([] : List Pos).length + natAbsDiff 0 5 + natAbsDiff 0 5) :=
  ⟨by decide, by decide⟩

/-- C7 amended: every entry pushed by an expansion carries the priority
key g + manhattan(coordinate, end), where g is the number of edges of its
stored path (one more than the expanded path); the initial entry instead
carries key 0; and every iteration pops an entry of minimal key from the
open list. -/
theorem c7_priority_keys (s : CityGrid) (en : Pos) :
    (∀ (x y : Nat) (path : List Pos), ∀ e ∈ successors s en x y path,
      e.1 = e.2.2.length + natAbsDiff e.2.1.1 en.1 + natAbsDiff e.2.1.2 en.2 ∧
      e.2.2.length = path.length + 1) ∧
    (∀ (e : Entry) (rest : List Entry), ∀ f ∈ e :: rest, (listMin e rest).1 ≤ f.1) := by
  constructor
  · intro x y path e he
    obtain ⟨i, j, rfl, _, _, _, _, _, _⟩ := mem_successors.mp he
    constructor
    · simp
    · simp
  · intro e rest f hf
    exact listMin_fst_le rest e f hf

/-- Witness for C7: a concrete pushed entry of the 1-by-2 tower grid has
key g + manhattan, and the minimum of a concrete two-entry open list is
below both keys. -/
theorem c7_witness :
    (((1 : Nat), ((0, 1) : Pos), [((0, 0) : Pos)]) ∈
      successors cgT12 (0, 1) 0 0 ([] : List Pos)) ∧
    ((1 : Nat), ((0, 1) : Pos), [((0, 0) : Pos)]).1 =
      ((1 : Nat), ((0, 1) : Pos), [((0, 0) : Pos)]).2.2.length +
        natAbsDiff ((1 : Nat), ((0, 1) : Pos), [((0, 0) : Pos)]).2.1.1 0 +
        natAbsDiff ((1 : Nat), ((0, 1) : Pos), [((0, 0) : Pos)]).2.1.2 1 ∧
    (listMin ((3 : Nat), ((0, 0) : Pos), ([] : List Pos))
      [((2 : Nat), ((0, 1) : Pos), ([] : List Pos))]).1 ≤
      ((2 : Nat), ((0, 1) : Pos), ([] : List Pos)).1 :=
  ⟨by decide,
   ((c7_priority_keys cgT12 (0, 1)).1 0 0 []
     ((1 : Nat), ((0, 1) : Pos), [((0, 0) : Pos)]) (by decide)).1,
   (c7_priority_keys cgT12 (0, 1)).2 ((3 : Nat), ((0, 0) : Pos), ([] : List Pos))
     [((2 : Nat), ((0, 1) : Pos), ([] : List Pos))]
     ((2 : Nat), ((0, 1) : Pos), ([] : List Pos)) (by simp)⟩

/-- The 1-by-2 tower grid after annotating the path [(0,0),(0,1)]. -/
def cgT12annot : CityGrid :=
  ⟨1, 2, 1, [[Cell.beginMark, Cell.endMark]], [(0, 0), (0, 1)]⟩

/-- A 1-by-3 grid: towers at (0,0) and (0,1), an obstruction at (0,2). -/
def cgT13 : CityGrid :=
  ⟨1, 3, 1, [[Cell.tower, Cell.tower, Cell.obstructed]], [(0, 0), (0, 1)]⟩

/-- The 1-by-3 grid after annotating the path [(0,0),(0,1)]. -/
def cgT13annot : CityGrid :=
  ⟨1, 3, 1, [[Cell.beginMark, Cell.endMark, Cell.obstructed]], [(0, 0), (0, 1)]⟩

/-- Counterexample to C3 as stated: on the 1-by-2 grid with stations at
(0,0) and (0,1), find_path finds the path [(0,0),(0,1)]; annotating that
found path overwrites the Station cell (0,0) with the begin marker, so
the registry coordinate (0,0) no longer corresponds to a Station cell. -/
theorem c3_counterexample :
    find_path cgT12 (0, 0) (0, 1) = some [(0, 0), (0, 1)] ∧
    cellAt cgT12.grid 0 0 = Cell.tower ∧
    ((0, 0) : Pos) ∈ cgT12.towers ∧
    build_path_on_grid cgT12 [(0, 0), (0, 1)] = some cgT12annot ∧
    cellAt cgT12annot.grid 0 0 = Cell.beginMark ∧
    cellAt cgT12annot.grid 0 0 ≠ Cell.tower :=
  ⟨by decide, by decide, by decide, by decide, by decide, by decide⟩

/-- C3 amended: annotation overwrites the state of the cells on the path
(Station cells included, as the counterexample shows); every cell not on
the annotated path keeps its exact prior state, so Obstructed cells and
Station cells off the path are untouched. -/
theorem c3_annotation_frame (s s2 : CityGrid) (p : List Pos)
    (h : build_path_on_grid s p = some s2) (i j : Nat)
    (hoff : ∀ c ∈ p, c ≠ (i, j)) :
    cellAt s2.grid i j = cellAt s.grid i j := by
  refine build_path_frame h ?_
  intro c hc
  by_contra hcon
  push_neg at hcon
  exact hoff c hc (Prod.ext hcon.1 hcon.2)

/-- Witness for C3 on the 1-by-3 grid: the obstruction at (0,2), off the
annotated path, keeps its state. -/
theorem c3_witness :
    build_path_on_grid cgT13 [(0, 0), (0, 1)] = some cgT13annot ∧
    cellAt cgT13annot.grid 0 2 = cellAt cgT13.grid 0 2 ∧
    cellAt cgT13.grid 0 2 = Cell.obstructed :=
  ⟨by decide,
   c3_annotation_frame cgT13 cgT13annot [(0, 0), (0, 1)] (by decide) 0 2 (by decide),
   by decide⟩

/-- Counterexample to C4 as stated: placing a tower on the obstructed cell
(0,0) does not fail with any error.  place_tower returns normally (the
source only prints an occupancy message; no InvalidTransition error exists
anywhere in the code) and the state is unchanged. -/
theorem c4_counterexample :
    cellAt cgObs11.grid 0 0 = Cell.obstructed ∧
    place_tower cgObs11 0 0 1 = cgObs11 :=
  ⟨by decide, by decide⟩

/-- C4 amended: attempting to place a tower on an Obstructed or Station
cell is rejected as a silent no-op rather than an error: the grid and the
tower registry are left exactly unchanged.  Obstructions and placed
stations are thus immutable under place_tower, whose only transition is
the station commit on a non-obstructed, non-station cell. -/
theorem c4_place_tower_immutable (s : CityGrid) (x y r : Nat)
    (h : cellAt s.grid x y = Cell.obstructed ∨ cellAt s.grid x y = Cell.tower) :
    place_tower s x y r = s := by
  unfold place_tower
  have hneg : ¬ (cellAt s.grid x y ≠ Cell.tower ∧ cellAt s.grid x y ≠ Cell.obstructed) := by
    rcases h with h | h <;> simp [h]
  rw [if_neg hneg]

/-- Witness for C4 on the obstructed 1-by-1 grid with radius 3. -/
theorem c4_witness :
    (cellAt cgObs11.grid 0 0 = Cell.obstructed ∨ cellAt cgObs11.grid 0 0 = Cell.tower) ∧
    place_tower cgObs11 0 0 3 = cgObs11 :=
  ⟨Or.inl (by decide), c4_place_tower_immutable cgObs11 0 0 3 (Or.inl (by decide))⟩

/-- C10: build_path_on_grid requires a non-empty path.  The empty path is
an out-of-range index error (Python IndexError at ttt_path[0], embedded
as none); for a non-empty path of in-bounds coordinates every grid index
access is in range and the annotation succeeds; a one-element path ends
marked with the end marker (the begin marker is written first and then
overwritten). -/
theorem c10_build_path_domain (s : CityGrid) (p : List Pos) (hwf : WF s) :
    build_path_on_grid s [] = none ∧
    (p ≠ [] → (∀ c ∈ p, c.1 < s.n ∧ c.2 < s.m) → (build_path_on_grid s p).isSome) ∧
    (∀ c : Pos, c.1 < s.n → c.2 < s.m →
      ∃ s2, build_path_on_grid s [c] = some s2 ∧
        cellAt s2.grid c.1 c.2 = Cell.endMark) := by
  obtain ⟨hlen, hrow⟩ := hwf
  have hbound : ∀ c : Pos, c.1 < s.n → c.2 < s.m →
      (decide (c.1 < s.grid.length) &&
        decide (c.2 < (s.grid.getD c.1 []).length)) = true := by
    intro c h1 h2
    have hc1 : c.1 < s.grid.length := by omega
    have hc2 : c.2 < (s.grid.getD c.1 []).length := by
      rw [hrow _ (getD_mem _ _ _ hc1)]; exact h2
    rw [Bool.and_eq_true]
    exact ⟨decide_eq_true hc1, decide_eq_true hc2⟩
  refine ⟨rfl, ?_, ?_⟩
  · intro hne hin
    cases p with
    | nil => exact absurd rfl hne
    | cons c0 rest =>
        simp only [build_path_on_grid]
        rw [if_pos ?hall]
        · simp
        case hall =>
          rw [List.all_eq_true]
          intro c hc
          obtain ⟨h1, h2⟩ := hin c hc
          exact hbound c h1 h2
  · intro c h1 h2
    have hc1 : c.1 < s.grid.length := by omega
    have hc2 : c.2 < (s.grid.getD c.1 []).length := by
      rw [hrow _ (getD_mem _ _ _ hc1)]; exact h2
    simp only [build_path_on_grid]
    rw [if_pos ?hall2]
    case hall2 =>
      rw [List.all_eq_true]
      intro d hd
      have hd2 : d = c := by simpa using hd
      subst hd2
      exact hbound d h1 h2
    refine ⟨_, rfl, ?_⟩
    have e1 : cellAt (setCell (setCell s.grid c.1 c.2 Cell.beginMark) c.1 c.2 Cell.endMark)
        c.1 c.2 = Cell.endMark := by
      apply cellAt_setCell_self
      · rw [length_setCell]; exact hc1
      · rw [setCell, getD_set_self _ _ _ _ hc1, List.length_set]; exact hc2
    exact e1

/-- Witness for C10 on the 1-by-3 grid. -/
theorem c10_witness :
    build_path_on_grid cgT13 [] = none ∧
    (build_path_on_grid cgT13 [(0, 0), (0, 1)]).isSome ∧
    ∃ s2, build_path_on_grid cgT13 [(0, 1)] = some s2 ∧
      cellAt s2.grid 0 1 = Cell.endMark := by
  obtain ⟨h1, h2, h3⟩ := c10_build_path_domain cgT13 [(0, 0), (0, 1)] (by decide)
  exact ⟨h1, h2 (by decide) (by decide), h3 (0, 1) (by decide) (by decide)⟩
